import Mathlib

/-!
Verification of the DocuForge frontend against its specification.

The definitions below are a shallow embedding of the TypeScript sources:
* the PPTX deck builder in `src/frontend/src/pages/ProjectWorkspace.tsx`
  (`handleExport`),
* the Zustand project store in `src/stores/projectStore.ts`
  (`addProject`, `deleteProject`, `updateSection`, `addRevision`,
  `addComment`, `loadProjects`, `setCurrentProject`),
* the axios request interceptor in `src/frontend/src/lib/api.ts`,
* the creation wizard's `handleCreate` in `NewProject`,
* the refinement flow `handleRefine` in `RefinementPanel`.

JavaScript strings are modelled as Lean `String`, `Date` values as `Nat`
timestamps, `undefined`/`null` fields as `Option`, and network calls as an
explicit `Except` outcome parameter together with the list of issued
requests.  Nondeterministic inputs of the source (`Date.now()`,
`new Date()`) are passed in as explicit arguments.
-/

namespace DocuForge

/-- A JS-style trim: drops leading and trailing whitespace characters,
modelling `String.prototype.trim`. -/
def jsTrim (s : String) : String :=
  String.mk (((s.data.dropWhile Char.isWhitespace).reverse.dropWhile Char.isWhitespace).reverse)

/-- One step of splitting a character stream on runs of newlines.  The state
is the list of segments built so far (each segment reversed, newest segment
first) together with a flag recording whether the previous character was a
newline (so that a run of newlines produces a single boundary). -/
def splitStep (st : List (List Char) × Bool) (c : Char) : List (List Char) × Bool :=
  if c = '\n' then
    if st.2 then (st.1, true) else ([] :: st.1, true)
  else
    match st.1 with
    | seg :: rest => ((c :: seg) :: rest, false)
    | [] => ([[c]], false)

/-- `content.split(/\n+/)` from `handleExport`: split a string on maximal
runs of newline characters.  Like the JS original, `""` yields `[""]` and a
leading/trailing newline run yields a leading/trailing empty segment. -/
def splitNewlineRuns (s : String) : List String :=
  ((s.data.foldl splitStep ([[]], false)).1.reverse).map (fun seg => String.mk seg.reverse)

/-- `content.split(/\n+/).map(p => p.trim()).filter(Boolean)` from
`handleExport` in `ProjectWorkspace.tsx`: the non-empty trimmed segments of
the section content.  JS `filter(Boolean)` on strings keeps exactly the
non-empty ones. -/
def paras (content : String) : List String :=
  ((splitNewlineRuns content).map jsTrim).filter (fun p => p ≠ "")

/-- `paras.slice(0, 6)` from `handleExport`: the bullets of a section's
summary slide. -/
def sectionBullets (content : String) : List String :=
  (paras content).take 6

/-- Modelled from the spec: one step of splitting on blank-line boundaries.
The state is the segments so far (reversed) and the number of consecutive
newlines pending; only a run of two or more newlines (a blank line) is a
paragraph boundary, a single newline stays inside its paragraph. -/
def blankStep (st : List (List Char) × Nat) (c : Char) : List (List Char) × Nat :=
  if c = '\n' then (st.1, st.2 + 1)
  else
    if st.2 ≥ 2 then ([c] :: st.1, 0)
    else
      match st.1 with
      | seg :: rest => ((c :: (List.replicate st.2 '\n' ++ seg)) :: rest, 0)
      | [] => ([[c]], 0)

/-- Modelled from the spec: "splitting section content on blank-line
boundaries".  This is the specification's wording of the paragraph split,
written independently of the source (which instead splits on every newline
run); it is used only to compare the two. -/
def splitOnBlankLines (s : String) : List String :=
  let res := s.data.foldl blankStep ([[]], 0)
  let segs :=
    if res.2 ≥ 2 then [] :: res.1
    else
      match res.1 with
      | seg :: rest => (List.replicate res.2 '\n' ++ seg) :: rest
      | [] => [[]]
  segs.reverse.map (fun seg => String.mk seg.reverse)

/-- Modelled from the spec: the bullets as the spec words them, "the first
N (cap = 6) non-empty paragraphs obtained by splitting section content on
blank-line boundaries". -/
def specBlankLineBullets (content : String) : List String :=
  (((splitOnBlankLines content).map jsTrim).filter (fun p => p ≠ "")).take 6

/-- `toUpperCase()` on an ASCII string, modelling JS `String.prototype.toUpperCase`. -/
def jsToUpperCase (s : String) : String :=
  String.mk (s.data.map Char.toUpper)

/-- The `DocumentType` union type `'docx' | 'pptx'` of the project store. -/
inductive DocumentType
  | docx
  | pptx
deriving DecidableEq, Repr

/-- The underlying string of a `DocumentType` value. -/
def DocumentType.toStr : DocumentType → String
  | .docx => "docx"
  | .pptx => "pptx"

/-- The `Revision` interface of the project store. -/
structure Revision where
  id : String
  content : String
  prompt : String
  timestamp : Nat
deriving DecidableEq, Repr

/-- The `Comment` interface of the project store. -/
structure Comment where
  id : String
  text : String
  timestamp : Nat
deriving DecidableEq, Repr

/-- The `Section` interface of the project store.  `liked?: boolean` is an
optional field, hence an `Option`. -/
structure Section where
  id : String
  title : String
  content : String
  order : Nat
  revisions : List Revision
  comments : List Comment
  liked : Option Bool
deriving DecidableEq, Repr

/-- The `Project` interface of the project store.  The `Date` fields are
modelled as optional timestamps (`none` standing for an invalid date built
from a missing server field). -/
structure Project where
  id : String
  title : String
  docType : DocumentType
  topic : String
  sections : List Section
  createdAt : Option Nat
  updatedAt : Option Nat
deriving DecidableEq, Repr

/-- A slide descriptor of the deck model built by `handleExport`: either the
leading title slide or a per-section summary slide. -/
inductive Slide
  | title (ttl : String) (subtitle : String) (images : List String)
  | summary (ttl : String) (bullets : List String) (notes : String)
deriving DecidableEq, Repr

/-- The deck object assembled by `handleExport` before POSTing it to
`/api/projects/generate_pptx`. -/
structure DeckModel where
  title : String
  author : String
  template : Option String
  slides : List Slide
deriving DecidableEq, Repr

/-- The deck construction in `handleExport` (`ProjectWorkspace.tsx`): title
and author from the project title, the selected template (or `{}`), a first
title slide carrying the project title and the uppercased doc type as
subtitle, then one summary slide per section whose bullets are
`sectionBullets` of its content.  (`s.content || ''` is the identity on the
store's string-typed content field.) -/
def buildDeckModel (p : Project) (selectedTemplate : Option String) : DeckModel :=
  { title := p.title
    author := p.title
    template := selectedTemplate
    slides :=
      Slide.title p.title (jsToUpperCase p.docType.toStr) [] ::
        p.sections.map (fun s => Slide.summary s.title (sectionBullets s.content) "") }

/-- A raw id on the wire: the backend may return a numeric or string id,
which the store normalizes with `String(...)`. -/
inductive RawId
  | str (s : String)
  | num (n : Nat)
deriving DecidableEq, Repr

/-- JS `String(id)` on a raw id. -/
def RawId.toJsString : RawId → String
  | .str s => s
  | .num n => toString n

/-- A section as returned by the backend: `revisions` and `comments` may be
absent (`undefined`), which the store defaults with `|| []`. -/
structure RawSection where
  id : RawId
  title : String
  content : String
  order : Nat
  revisions : Option (List Revision)
  comments : Option (List Comment)
  liked : Option Bool
deriving DecidableEq, Repr

/-- A project as returned by the backend: snake_case timestamp fields with
camelCase fallbacks, a possibly absent `sections` array, and a raw id. -/
structure RawProject where
  id : RawId
  title : String
  docType : DocumentType
  topic : String
  sections : Option (List RawSection)
  created_at : Option Nat
  createdAt : Option Nat
  updated_at : Option Nat
  updatedAt : Option Nat
deriving DecidableEq, Repr

/-- The per-section normalization shared by `addProject`,
`setCurrentProject` and `loadProjects` in the project store:
`{ ...s, id: String(s.id), revisions: s.revisions || [], comments: s.comments || [] }`. -/
def normalizeSection (s : RawSection) : Section :=
  { id := s.id.toJsString
    title := s.title
    content := s.content
    order := s.order
    revisions := s.revisions.getD []
    comments := s.comments.getD []
    liked := s.liked }

/-- The response normalization in the store's `addProject`: string id,
`new Date(created.created_at || created.createdAt)` timestamps, and
normalized sections.  The source guards the section map with
`Array.isArray(created.sections)` and would leave a non-array value in
place; since the store's `Section[]` type (and the backend contract) make
that branch unreachable with anything but an array, an absent array is
embedded as `[]`. -/
def normalizeCreated (raw : RawProject) : Project :=
  { id := raw.id.toJsString
    title := raw.title
    docType := raw.docType
    topic := raw.topic
    sections := (raw.sections.getD []).map normalizeSection
    createdAt := raw.created_at <|> raw.createdAt
    updatedAt := raw.updated_at <|> raw.updatedAt }

/-- The response normalization shared by the fetch path of
`setCurrentProject` and by `loadProjects`: string id, sections normalized
when an array and defaulted to `[]` otherwise, and
`new Date(p.created_at || p.createdAt)` timestamps. -/
def normalizeProjectResponse (raw : RawProject) : Project :=
  { id := raw.id.toJsString
    title := raw.title
    docType := raw.docType
    topic := raw.topic
    sections :=
      match raw.sections with
      | some l => l.map normalizeSection
      | none => []
    createdAt := raw.created_at <|> raw.createdAt
    updatedAt := raw.updated_at <|> raw.updatedAt }

/-- The slice of the Zustand store state the mutations touch. -/
structure ProjectState where
  projects : List Project
  currentProject : Option Project
deriving DecidableEq, Repr

/-- A REST request issued by a store mutation. -/
inductive Request
  | get (path : String)
  | post (path : String)
  | delete (path : String)
deriving DecidableEq, Repr

/-- The store's `addProject`: awaits `POST /api/projects/`; on success the
normalized response is appended to `projects` and returned, on failure the
error is logged and `null` is returned with the state untouched. -/
def addProject (st : ProjectState) (response : Except Unit RawProject) :
    ProjectState × List Request × Option Project :=
  match response with
  | .ok raw =>
    let created := normalizeCreated raw
    ({ st with projects := st.projects ++ [created] },
      [Request.post "/api/projects/"], some created)
  | .error _ => (st, [Request.post "/api/projects/"], none)

/-- The store's `deleteProject`: awaits `DELETE /api/projects/{id}`; on
success the projects with that id are filtered out and `currentProject` is
nulled when it carries that id, on failure the error is logged and the
state is untouched. -/
def deleteProject (st : ProjectState) (id : String) (response : Except Unit Unit) :
    ProjectState × List Request :=
  match response with
  | .ok _ =>
    ({ projects := st.projects.filter (fun p => p.id ≠ id)
       currentProject :=
         match st.currentProject with
         | some cp => if cp.id = id then none else some cp
         | none => none },
      [Request.delete ("/api/projects/" ++ id)])
  | .error _ => (st, [Request.delete ("/api/projects/" ++ id)])

/-- A `Partial<Section>` argument of `updateSection`: each field may be
present (overriding) or absent. -/
structure SectionUpdates where
  id : Option String := none
  title : Option String := none
  content : Option String := none
  order : Option Nat := none
  revisions : Option (List Revision) := none
  comments : Option (List Comment) := none
  liked : Option (Option Bool) := none
deriving DecidableEq, Repr

/-- The JS spread `{ ...s, ...updates }`: fields present in `updates`
override those of `s`. -/
def applyUpdates (u : SectionUpdates) (s : Section) : Section :=
  { id := u.id.getD s.id
    title := u.title.getD s.title
    content := u.content.getD s.content
    order := u.order.getD s.order
    revisions := u.revisions.getD s.revisions
    comments := u.comments.getD s.comments
    liked := u.liked.getD s.liked }

/-- The per-section map of `updateSection`:
`s.id === sectionId ? { ...s, ...updates } : s`. -/
def updSection (sectionId : String) (updates : SectionUpdates) (s : Section) : Section :=
  if s.id = sectionId then applyUpdates updates s else s

/-- The per-project map of `updateSection`: the matching project gets its
sections mapped through `updSection` and a fresh `updatedAt`. -/
def updProject (projectId sectionId : String) (updates : SectionUpdates) (now : Nat)
    (p : Project) : Project :=
  if p.id = projectId then
    { p with sections := p.sections.map (updSection sectionId updates)
             updatedAt := some now }
  else p

/-- The store's `updateSection`: applies the same section update to the
`projects` array and to `currentProject` (when it carries the project id).
It issues no network call. -/
def updateSection (st : ProjectState) (projectId sectionId : String)
    (updates : SectionUpdates) (now : Nat) : ProjectState × List Request :=
  ({ projects := st.projects.map (updProject projectId sectionId updates now)
     currentProject := st.currentProject.map (updProject projectId sectionId updates now) },
    [])

/-- The per-section map of `addRevision`:
`s.id === sectionId ? { ...s, revisions: [...s.revisions, newRevision] } : s`. -/
def addRevisionSection (sectionId : String) (newRevision : Revision) (s : Section) : Section :=
  if s.id = sectionId then { s with revisions := s.revisions ++ [newRevision] } else s

/-- The per-project map of `addRevision`: the matching project gets the
new revision appended into the matching section and a fresh `updatedAt`. -/
def addRevisionProject (projectId sectionId : String) (newRevision : Revision) (now : Nat)
    (p : Project) : Project :=
  if p.id = projectId then
    { p with sections := p.sections.map (addRevisionSection sectionId newRevision)
             updatedAt := some now }
  else p

/-- The store's `addRevision`: builds a new `Revision` from the input plus a
generated id (`Date.now().toString()`) and timestamp, and appends it to the
matching section's revisions inside `projects` only.  It issues no network
call, and `currentProject` is left untouched. -/
def addRevision (st : ProjectState) (projectId sectionId : String)
    (content prompt : String) (newId : String) (now : Nat) : ProjectState × List Request :=
  let newRevision : Revision :=
    { id := newId, content := content, prompt := prompt, timestamp := now }
  ({ st with
      projects := st.projects.map (addRevisionProject projectId sectionId newRevision now) },
    [])

/-- The store's `addComment`: builds a new `Comment`, fires off
`POST /api/projects/{id}/comment` without awaiting it (failures are only
logged), and appends the comment to the matching section inside `projects`
only; the local update is applied whatever the call's outcome, and
`currentProject` is left untouched. -/
def addComment (st : ProjectState) (projectId sectionId : String) (text : String)
    (newId : String) (now : Nat) (response : Except Unit Unit) : ProjectState × List Request :=
  let newComment : Comment := { id := newId, text := text, timestamp := now }
  let _ := response
  ({ st with
      projects := st.projects.map (fun p =>
        if p.id = projectId then
          { p with
              sections := p.sections.map (fun s =>
                if s.id = sectionId then { s with comments := s.comments ++ [newComment] }
                else s)
              updatedAt := some now }
        else p) },
    [Request.post ("/api/projects/" ++ projectId ++ "/comment")])

/-- The store's `loadProjects`: `GET /api/projects/`, replacing `projects`
with the normalized response on success and leaving the state untouched on
failure (console-only error). -/
def loadProjects (st : ProjectState) (response : Except Unit (List RawProject)) :
    ProjectState × List Request :=
  match response with
  | .ok raws =>
    ({ st with projects := raws.map normalizeProjectResponse }, [Request.get "/api/projects/"])
  | .error _ => (st, [Request.get "/api/projects/"])

/-- The success path of `handleRefine` in `RefinementPanel`: after the
refine endpoint returns the revised text, the section content is updated
via `updateSection` and a local revision entry is recorded via
`addRevision`. -/
def handleRefineSuccess (st : ProjectState) (projectId sectionId : String)
    (refined prompt : String) (revId : String) (now now2 : Nat) : ProjectState :=
  let st1 := (updateSection st projectId sectionId { content := some refined } now).1
  (addRevision st1 projectId sectionId refined prompt revId now2).1

/-- Property assignment `headers.Authorization = v`: any previous binding of
the key is overwritten. -/
def setHeader (headers : List (String × String)) (key value : String) :
    List (String × String) :=
  headers.filter (fun kv => kv.1 ≠ key) ++ [(key, value)]

/-- Lookup of a header value in a request config. -/
def getHeader (headers : Option (List (String × String))) (key : String) : Option String :=
  (headers.getD []).lookup key

/-- The axios request interceptor in `api.ts`:
`if (token && config.headers) config.headers.Authorization = 'Bearer ' + token`.
JS truthiness makes both a `null` and an empty-string token skip the
assignment, as does an absent headers object. -/
def interceptRequest (token : Option String) (headers : Option (List (String × String))) :
    Option (List (String × String)) :=
  match token, headers with
  | some t, some hs =>
    if t = "" then some hs else some (setHeader hs "Authorization" ("Bearer " ++ t))
  | _, hs => hs

/-- A section row of the creation wizard (id and editable title). -/
structure WizardSection where
  id : String
  title : String
deriving DecidableEq, Repr

/-- `handleCreate` in the `NewProject` wizard: keep the sections whose
trimmed title is non-empty; refuse creation (`none`) when none remain;
otherwise scaffold each kept section with empty content, empty histories
and its position in the kept list as order index. -/
def handleCreate (sections : List WizardSection) : Option (List Section) :=
  let validSections := sections.filter (fun s => jsTrim s.title ≠ "")
  if validSections.length = 0 then none
  else
    some (validSections.enum.map (fun is =>
      { id := is.2.id
        title := is.2.title
        content := ""
        order := is.1
        revisions := []
        comments := []
        liked := none }))

/-- A concrete store section used by concrete instances below. -/
def sampleSection : Section :=
  { id := "s1", title := "Intro", content := "hello", order := 0
    revisions := [], comments := [], liked := none }

/-- A concrete project holding `sampleSection`. -/
def sampleProject : Project :=
  { id := "1", title := "T", docType := .pptx, topic := "x"
    sections := [sampleSection], createdAt := some 0, updatedAt := some 0 }

/-- A concrete project with no sections. -/
def emptySectionsProject : Project :=
  { id := "2", title := "T", docType := .pptx, topic := "x"
    sections := [], createdAt := some 0, updatedAt := some 0 }

/-- A concrete raw server section with absent revision/comment arrays. -/
def sampleRawSection : RawSection :=
  { id := .num 7, title := "Intro", content := "c", order := 0
    revisions := none, comments := none, liked := none }

/-- A concrete raw server project holding `sampleRawSection`. -/
def sampleRawProject : RawProject :=
  { id := .num 3, title := "T", docType := .docx, topic := "x"
    sections := some [sampleRawSection]
    created_at := some 10, createdAt := none, updated_at := none, updatedAt := some 11 }

/-- Every character in a segment produced by folding `splitStep` comes from
the initial segments or from the folded character list. -/
lemma mem_foldl_splitStep (c : Char) :
    ∀ (l : List Char) (segs : List (List Char)) (b : Bool) (seg : List Char),
      seg ∈ (l.foldl splitStep (segs, b)).1 → c ∈ seg →
      (∃ seg0 ∈ segs, c ∈ seg0) ∨ c ∈ l := by
  intro l
  induction l with
  | nil => exact fun segs b seg hseg hc => .inl ⟨seg, hseg, hc⟩
  | cons a l ih =>
    intro segs b seg hseg hc
    have hseg' : seg ∈ (l.foldl splitStep (splitStep (segs, b) a)).1 := hseg
    have step := ih (splitStep (segs, b) a).1 (splitStep (segs, b) a).2 seg hseg' hc
    rcases step with ⟨seg0, h0, hc0⟩ | hcl
    · by_cases ha : a = '\n'
      · cases b with
        | true =>
          simp only [splitStep, if_pos ha] at h0
          exact .inl ⟨seg0, h0, hc0⟩
        | false =>
          simp only [splitStep, if_pos ha] at h0
          rcases List.mem_cons.mp h0 with rfl | h0'
          · exact absurd hc0 (List.not_mem_nil c)
          · exact .inl ⟨seg0, h0', hc0⟩
      · cases segs with
        | nil =>
          simp only [splitStep, if_neg ha] at h0
          rcases List.mem_cons.mp h0 with rfl | h0'
          · rcases List.mem_cons.mp hc0 with rfl | h
            · exact .inr (List.mem_cons_self c l)
            · exact absurd h (List.not_mem_nil c)
          · exact absurd h0' (List.not_mem_nil seg0)
        | cons s0 rest =>
          simp only [splitStep, if_neg ha] at h0
          rcases List.mem_cons.mp h0 with rfl | h0'
          · rcases List.mem_cons.mp hc0 with rfl | h
            · exact .inr (List.mem_cons_self c l)
            · exact .inl ⟨s0, List.mem_cons_self s0 rest, h⟩
          · exact .inl ⟨seg0, List.mem_cons_of_mem s0 h0', hc0⟩
    · exact .inr (List.mem_cons_of_mem a hcl)

/-- Every character of a segment of `splitNewlineRuns s` is a character of `s`. -/
lemma mem_splitNewlineRuns_subset (s seg : String)
    (hseg : seg ∈ splitNewlineRuns s) : ∀ c ∈ seg.data, c ∈ s.data := by
  intro c hc
  unfold splitNewlineRuns at hseg
  rcases List.mem_map.mp hseg with ⟨seg0, h0, rfl⟩
  have h0' : seg0 ∈ (s.data.foldl splitStep ([[]], false)).1 := List.mem_reverse.mp h0
  have hc' : c ∈ seg0 := List.mem_reverse.mp hc
  rcases mem_foldl_splitStep c s.data [[]] false seg0 h0' hc' with ⟨seg1, h1, hc1⟩ | h
  · rcases List.mem_cons.mp h1 with rfl | h1'
    · exact absurd hc1 (List.not_mem_nil c)
    · exact absurd h1' (List.not_mem_nil seg1)
  · exact h

/-- Trimming a whitespace-only string yields the empty string. -/
lemma jsTrim_whitespace_empty (s : String) (h : ∀ c ∈ s.data, c.isWhitespace = true) :
    jsTrim s = "" := by
  unfold jsTrim
  have h1 : s.data.dropWhile Char.isWhitespace = [] := by
    rw [List.dropWhile_eq_nil_iff]
    exact h
  rw [h1]
  rfl

/-- A whitespace-only section content yields no bullets. -/
lemma sectionBullets_whitespace (content : String)
    (h : ∀ c ∈ content.data, c.isWhitespace = true) : sectionBullets content = [] := by
  have hp : paras content = [] := by
    unfold paras
    rw [List.filter_eq_nil_iff]
    intro a ha
    rcases List.mem_map.mp ha with ⟨seg, hseg, rfl⟩
    have hseg' : jsTrim seg = "" :=
      jsTrim_whitespace_empty seg
        (fun c hc => h c (mem_splitNewlineRuns_subset content seg hseg c hc))
    simp [hseg']
  unfold sectionBullets
  rw [hp]
  rfl

/-- C1 counterexample: on the content `"a\nb"`, which contains a line break
but no blank line, the export builder produces the two bullets `"a"` and
`"b"`, while splitting on blank-line boundaries as the claim words it
yields the single paragraph `"a\nb"`. -/
theorem C1_counterexample :
    sectionBullets "a\nb" = ["a", "b"] ∧
    specBlankLineBullets "a\nb" = ["a\nb"] ∧
    sectionBullets "a\nb" ≠ specBlankLineBullets "a\nb" := by
  refine ⟨by decide, by decide, by decide⟩

/-- C1 (amended): the bullets of a section's summary slide are the first
min(n, 6) of the n non-empty, whitespace-trimmed segments obtained by
splitting the content on runs of one or more newlines (every newline run is
a boundary, not only blank lines); in particular content with 8 non-empty
paragraphs yields exactly 6 bullets, and blank or whitespace-only content
yields zero bullets without error. -/
theorem C1_bullets_truncation :
    (∀ content : String,
        sectionBullets content = (paras content).take 6 ∧
        (sectionBullets content).length = min (paras content).length 6) ∧
    (∀ content : String, (∀ c ∈ content.data, c.isWhitespace = true) →
        sectionBullets content = []) ∧
    sectionBullets "p1\n\np2\n\np3\n\np4\n\np5\n\np6\n\np7\n\np8"
      = ["p1", "p2", "p3", "p4", "p5", "p6"] ∧
    sectionBullets "" = [] := by
  refine ⟨fun content => ⟨rfl, ?_⟩, sectionBullets_whitespace, by decide, by decide⟩
  simp [sectionBullets, List.length_take, Nat.min_comm]

/-- C1 witness: a whitespace-only content yields zero bullets. -/
theorem C1_witness : sectionBullets " \n\t " = [] :=
  C1_bullets_truncation.2.1 " \n\t " (by decide)

/-- C2: the deck built for PPTX export has exactly one slide per section
plus a leading title slide; the first slide is a title slide bearing the
project title and the uppercased doc type as subtitle; with zero sections
the deck has exactly the title slide. -/
theorem C2_deck_slides :
    ∀ (p : Project) (tmpl : Option String),
      (buildDeckModel p tmpl).slides.length = p.sections.length + 1 ∧
      (buildDeckModel p tmpl).slides.head? =
        some (Slide.title p.title (jsToUpperCase p.docType.toStr) []) ∧
      (buildDeckModel p tmpl).slides.tail =
        p.sections.map (fun s => Slide.summary s.title (sectionBullets s.content) "") ∧
      (buildDeckModel p tmpl).title = p.title ∧
      (p.sections = [] →
        (buildDeckModel p tmpl).slides =
          [Slide.title p.title (jsToUpperCase p.docType.toStr) []]) := by
  intro p tmpl
  refine ⟨by simp [buildDeckModel], rfl, rfl, rfl, fun h => by simp [buildDeckModel, h]⟩

/-- C2 witness: the deck of a concrete zero-section PPTX project is exactly
one title slide with the project title and `"PPTX"` subtitle. -/
theorem C2_witness :
    (buildDeckModel emptySectionsProject none).slides = [Slide.title "T" "PPTX" []] := by
  rw [(C2_deck_slides emptySectionsProject none).2.2.2.2 rfl]
  decide

/-- C3: a refine operation appends exactly one new Revision to the targeted
section's revision list, leaves every other section's revisions untouched,
and never removes or alters a previously recorded revision (the old
revision list is a prefix of the new one), project ids and list shapes
being preserved throughout. -/
theorem C3_refine_appends :
    ∀ (st : ProjectState) (pid sid refined prompt rid : String) (ts ts2 : Nat),
      List.Forall₂ (fun pOld pNew =>
          pNew.id = pOld.id ∧
          List.Forall₂ (fun sOld sNew =>
              sNew.id = sOld.id ∧
              sNew.revisions =
                (if pOld.id = pid ∧ sOld.id = sid
                  then sOld.revisions ++
                    [{ id := rid, content := refined, prompt := prompt, timestamp := ts2 }]
                  else sOld.revisions) ∧
              sOld.revisions <+: sNew.revisions)
            pOld.sections pNew.sections)
        st.projects (handleRefineSuccess st pid sid refined prompt rid ts ts2).projects := by
  intro st pid sid refined prompt rid ts ts2
  simp only [handleRefineSuccess, updateSection, addRevision, List.map_map]
  rw [List.forall₂_map_right_iff, List.forall₂_same]
  intro p hp
  simp only [Function.comp_apply]
  by_cases hpid : p.id = pid
  · refine ⟨by simp [updProject, addRevisionProject, hpid], ?_⟩
    have hsec : (addRevisionProject pid sid
          { id := rid, content := refined, prompt := prompt, timestamp := ts2 } ts2
          (updProject pid sid { content := some refined } ts p)).sections
        = p.sections.map (fun s =>
            addRevisionSection sid
              { id := rid, content := refined, prompt := prompt, timestamp := ts2 }
              (updSection sid { content := some refined } s)) := by
      simp [updProject, addRevisionProject, hpid, List.map_map]
    rw [hsec, List.forall₂_map_right_iff, List.forall₂_same]
    intro s hs
    by_cases hsid : s.id = sid
    · have hrev : (addRevisionSection sid
            { id := rid, content := refined, prompt := prompt, timestamp := ts2 }
            (updSection sid { content := some refined } s)).revisions
          = s.revisions ++ [{ id := rid, content := refined, prompt := prompt, timestamp := ts2 }] := by
        simp [updSection, addRevisionSection, applyUpdates, hsid]
      refine ⟨by simp [updSection, addRevisionSection, applyUpdates, hsid], ?_, ?_⟩
      · rw [hrev, if_pos ⟨hpid, hsid⟩]
      · rw [hrev]
        exact ⟨_, rfl⟩
    · have hrev : (addRevisionSection sid
            { id := rid, content := refined, prompt := prompt, timestamp := ts2 }
            (updSection sid { content := some refined } s)).revisions
          = s.revisions := by
        simp [updSection, addRevisionSection, applyUpdates, hsid]
      refine ⟨by simp [updSection, addRevisionSection, applyUpdates, hsid], ?_, ?_⟩
      · rw [hrev, if_neg (fun h => hsid h.2)]
      · rw [hrev]
  · have hsec : (addRevisionProject pid sid
          { id := rid, content := refined, prompt := prompt, timestamp := ts2 } ts2
          (updProject pid sid { content := some refined } ts p))
        = p := by
      simp [updProject, addRevisionProject, hpid]
    rw [hsec]
    refine ⟨rfl, ?_⟩
    rw [List.forall₂_same]
    intro s hs
    exact ⟨rfl, by rw [if_neg (fun h => hpid h.1)], ⟨[], List.append_nil _⟩⟩

/-- C4 counterexample: `updateSection` and `addRevision` issue no network
call at all, and when its network call fails `addProject` leaves the local
state untouched instead of keeping an optimistic update, as does
`deleteProject` — refuting the claim that every one of the five store
mutations optimistically updates local state and independently fires a
network call. -/
theorem C4_counterexample :
    (updateSection ⟨[sampleProject], none⟩ "1" "s1" {} 5).2 = [] ∧
    (addRevision ⟨[sampleProject], none⟩ "1" "s1" "c" "p" "99" 5).2 = [] ∧
    (addProject ⟨[], none⟩ (Except.error ())).1 = ⟨[], none⟩ ∧
    (deleteProject ⟨[sampleProject], none⟩ "1" (Except.error ())).1.projects
      = [sampleProject] :=
  ⟨rfl, rfl, rfl, rfl⟩

/-- C4 (amended): `addComment` optimistically updates the local store state
and fires a fire-and-forget network call whose outcome never changes the
local update (console-only error reporting, no rollback); `addProject` and
`deleteProject` instead update local state only after their network call
succeeds and change nothing locally on failure; `updateSection` and
`addRevision` are purely local mutations issuing no network call. -/
theorem C4_mutation_network_behavior :
    ∀ (st : ProjectState) (pid sid text cid cont pr rid : String) (ts : Nat)
      (u : SectionUpdates) (r1 r2 : Except Unit Unit),
      (addComment st pid sid text cid ts r1).1 = (addComment st pid sid text cid ts r2).1 ∧
      (addComment st pid sid text cid ts r1).2 =
        [Request.post ("/api/projects/" ++ pid ++ "/comment")] ∧
      (addProject st (Except.error ())).1 = st ∧
      (addProject st (Except.error ())).2.2 = none ∧
      (deleteProject st pid (Except.error ())).1 = st ∧
      (updateSection st pid sid u ts).2 = [] ∧
      (addRevision st pid sid cont pr rid ts).2 = [] :=
  fun _ _ _ _ _ _ _ _ _ _ _ _ => ⟨rfl, rfl, rfl, rfl, rfl, rfl, rfl⟩

/-- C5: when the `deleteProject` network call succeeds, exactly the
projects with the given id are removed (membership characterization, order
of the survivors preserved), and `currentProject` is nulled exactly when it
carried that id, being left as-is otherwise. -/
theorem C5_delete_frame :
    ∀ (st : ProjectState) (id : String),
      List.Sublist (deleteProject st id (Except.ok ())).1.projects st.projects ∧
      (∀ p : Project, p ∈ (deleteProject st id (Except.ok ())).1.projects ↔
          p ∈ st.projects ∧ p.id ≠ id) ∧
      (st.currentProject = none →
        (deleteProject st id (Except.ok ())).1.currentProject = none) ∧
      (∀ cp : Project, st.currentProject = some cp →
        ((deleteProject st id (Except.ok ())).1.currentProject = none ↔ cp.id = id)) ∧
      (∀ cp : Project, st.currentProject = some cp → cp.id ≠ id →
        (deleteProject st id (Except.ok ())).1.currentProject = some cp) := by
  intro st id
  refine ⟨List.filter_sublist _, ?_, ?_, ?_, ?_⟩
  · intro p
    simp [deleteProject, List.mem_filter]
  · intro h
    simp [deleteProject, h]
  · intro cp hcp
    simp only [deleteProject, hcp]
    by_cases hid : cp.id = id
    · simp [hid]
    · simp [hid]
  · intro cp hcp hid
    simp [deleteProject, hcp, hid]

/-- C5 witness: deleting the project currently open nulls `currentProject`. -/
theorem C5_witness :
    (deleteProject ⟨[sampleProject], some sampleProject⟩ "1" (Except.ok ())).1.currentProject
      = none :=
  ((C5_delete_frame ⟨[sampleProject], some sampleProject⟩ "1").2.2.2.1 sampleProject rfl).mpr rfl

/-- Looking the key up after removing all its bindings yields nothing. -/
lemma lookup_filter_ne (hs : List (String × String)) (key : String) :
    (hs.filter (fun kv => kv.1 ≠ key)).lookup key = none := by
  simp
  exact fun a b _ hak hka => hak hka.symm

/-- After `setHeader`, looking up the key yields the assigned value. -/
lemma lookup_setHeader (hs : List (String × String)) (key value : String) :
    (setHeader hs key value).lookup key = some value := by
  unfold setHeader
  induction hs with
  | nil => simp [List.lookup]
  | cons kv rest ih =>
    rw [List.filter_cons]
    by_cases h : kv.1 = key
    · have hb : (decide ¬kv.1 = key) = false := by simp [h]
      rw [hb]
      simpa using ih
    · have hb : (decide ¬kv.1 = key) = true := by simp [h]
      rw [hb]
      simp only [if_true, List.cons_append]
      have hbeq : (key == kv.1) = false := by simp [Ne.symm h]
      rw [List.lookup]
      simp only [hbeq]
      exact ih

/-- C6 counterexample: with the non-null but empty token `some ""` the
interceptor attaches no `Authorization` header (JS truthiness treats the
empty string like a missing token), refuting the claim for that store
state. -/
theorem C6_counterexample :
    some "" ≠ (none : Option String) ∧
    getHeader (interceptRequest (some "") (some [])) "Authorization" = none :=
  ⟨by decide, rfl⟩

/-- C6 (amended): for every request whose config carries a headers object,
if the auth store holds a non-null and non-empty token then the request
carries the header `Authorization: Bearer <token>`. -/
theorem C6_bearer_header :
    ∀ (t : String) (hs : List (String × String)), t ≠ "" →
      getHeader (interceptRequest (some t) (some hs)) "Authorization"
        = some ("Bearer " ++ t) := by
  intro t hs ht
  simp only [interceptRequest, if_neg ht, getHeader, Option.getD_some]
  exact lookup_setHeader hs "Authorization" ("Bearer " ++ t)

/-- C6 witness: a concrete non-empty token is attached as a bearer header. -/
theorem C6_witness :
    getHeader (interceptRequest (some "tok") (some [])) "Authorization"
      = some "Bearer tok" :=
  C6_bearer_header "tok" [] (by decide)

/-- Mapping `Prod.fst` over `enumFrom` yields the index range. -/
lemma enumFrom_map_fst {α : Type} :
    ∀ (n : Nat) (l : List α), (List.enumFrom n l).map Prod.fst = List.range' n l.length := by
  intro n l
  induction l generalizing n with
  | nil => rfl
  | cons a l ih => simp [List.range', List.enumFrom, ih]

/-- Mapping `Prod.snd` over `enumFrom` yields the original list. -/
lemma enumFrom_map_snd {α : Type} :
    ∀ (n : Nat) (l : List α), (List.enumFrom n l).map Prod.snd = l := by
  intro n l
  induction l generalizing n with
  | nil => rfl
  | cons a l ih => simp [List.enumFrom, ih]

/-- C7: the scaffold submitted by the creation wizard consists of exactly
the wizard sections with non-empty trimmed titles in displayed order, each
with empty content and empty histories, and order indices enumerating the
kept list 0..n-1 (hence unique and dense); creation is refused exactly when
no section has a non-empty trimmed title. -/
theorem C7_handleCreate_scaffold :
    ∀ sections : List WizardSection,
      (handleCreate sections = none ↔
        sections.filter (fun s => jsTrim s.title ≠ "") = []) ∧
      (∀ out : List Section, handleCreate sections = some out →
        out.length = (sections.filter (fun s => jsTrim s.title ≠ "")).length ∧
        out.map Section.order = List.range out.length ∧
        (out.map Section.order).Nodup ∧
        out.map (fun s => (s.id, s.title)) =
          (sections.filter (fun s => jsTrim s.title ≠ "")).map (fun s => (s.id, s.title)) ∧
        ∀ s ∈ out, s.content = "" ∧ s.revisions = [] ∧ s.comments = []) := by
  intro sections
  constructor
  · unfold handleCreate
    by_cases h : (sections.filter (fun s => jsTrim s.title ≠ "")).length = 0
    · simp [h, List.length_eq_zero.mp h]
    · rw [if_neg h]
      constructor
      · intro hc
        exact absurd hc (by simp)
      · intro hc
        exact absurd (by rw [hc]; rfl) h
  · intro out hout
    unfold handleCreate at hout
    by_cases h : (sections.filter (fun s => jsTrim s.title ≠ "")).length = 0
    · rw [if_pos h] at hout
      exact absurd hout (by simp)
    · rw [if_neg h] at hout
      obtain rfl := (Option.some.inj hout).symm
      refine ⟨?_, ?_, ?_, ?_, ?_⟩
      · simp [List.enum_length]
      · simp only [List.length_map, List.enum_length, List.map_map]
        rw [show (sections.filter (fun s => jsTrim s.title ≠ "")).enum
            = List.enumFrom 0 (sections.filter (fun s => jsTrim s.title ≠ "")) from rfl]
        rw [show (Section.order ∘ fun is : Nat × WizardSection =>
            ({ id := is.2.id, title := is.2.title, content := "", order := is.1,
               revisions := [], comments := [], liked := none } : Section)) = Prod.fst from rfl]
        rw [enumFrom_map_fst, List.range_eq_range']
      · simp only [List.length_map, List.enum_length, List.map_map]
        rw [show (sections.filter (fun s => jsTrim s.title ≠ "")).enum
            = List.enumFrom 0 (sections.filter (fun s => jsTrim s.title ≠ "")) from rfl]
        rw [show (Section.order ∘ fun is : Nat × WizardSection =>
            ({ id := is.2.id, title := is.2.title, content := "", order := is.1,
               revisions := [], comments := [], liked := none } : Section)) = Prod.fst from rfl]
        rw [enumFrom_map_fst]
        rw [← List.range_eq_range']
        exact List.nodup_range _
      · simp only [List.map_map]
        rw [show (sections.filter (fun s => jsTrim s.title ≠ "")).enum
            = List.enumFrom 0 (sections.filter (fun s => jsTrim s.title ≠ "")) from rfl]
        rw [show ((fun s : Section => (s.id, s.title)) ∘ fun is : Nat × WizardSection =>
            ({ id := is.2.id, title := is.2.title, content := "", order := is.1,
               revisions := [], comments := [], liked := none } : Section))
            = (fun s : WizardSection => (s.id, s.title)) ∘ Prod.snd from rfl]
        rw [← List.map_map, enumFrom_map_snd]
      · intro s hs
        rcases List.mem_map.mp hs with ⟨is, hmem, rfl⟩
        exact ⟨rfl, rfl, rfl⟩

/-- A concrete wizard section list with one whitespace-only title. -/
def wizardSample : List WizardSection :=
  [{ id := "1", title := "Introduction" }, { id := "2", title := "   " },
   { id := "3", title := "Body" }]

/-- The scaffold `handleCreate` builds from `wizardSample`. -/
def scaffoldSample : List Section :=
  [{ id := "1", title := "Introduction", content := "", order := 0,
     revisions := [], comments := [], liked := none },
   { id := "3", title := "Body", content := "", order := 1,
     revisions := [], comments := [], liked := none }]

/-- C7 witness: on a concrete wizard list the kept sections get the dense
order indices 0 and 1. -/
theorem C7_witness : scaffoldSample.map Section.order = List.range scaffoldSample.length :=
  ((C7_handleCreate_scaffold wizardSample).2 scaffoldSample (by decide)).2.1

/-- The last element of a list with a singleton appended. -/
lemma getLast?_append_singleton {α : Type} (l : List α) (a : α) :
    (l ++ [a]).getLast? = some a := by
  induction l with
  | nil => rfl
  | cons b l ih =>
    rw [List.cons_append]
    cases hl : l ++ [a] with
    | nil => exact absurd hl (by simp)
    | cons c t =>
      rw [List.getLast?_cons_cons, ← hl]
      exact ih

/-- C8: a successful `addProject` appends the normalized server response to
the end of the projects list (the previous list being an unchanged prefix),
returns exactly that created project, leaves `currentProject` alone, and
the normalization produces the stringified id and the
`created_at || createdAt` / `updated_at || updatedAt` timestamps. -/
theorem C8_addProject_appends :
    ∀ (st : ProjectState) (raw : RawProject),
      (addProject st (Except.ok raw)).1.projects = st.projects ++ [normalizeCreated raw] ∧
      st.projects <+: (addProject st (Except.ok raw)).1.projects ∧
      (addProject st (Except.ok raw)).1.projects.getLast? = some (normalizeCreated raw) ∧
      (addProject st (Except.ok raw)).2.2 = some (normalizeCreated raw) ∧
      (addProject st (Except.ok raw)).1.currentProject = st.currentProject ∧
      (normalizeCreated raw).id = raw.id.toJsString ∧
      (normalizeCreated raw).createdAt = (raw.created_at <|> raw.createdAt) ∧
      (normalizeCreated raw).updatedAt = (raw.updated_at <|> raw.updatedAt) := by
  intro st raw
  refine ⟨rfl, ⟨[normalizeCreated raw], rfl⟩, ?_, rfl, rfl, rfl, rfl, rfl⟩
  exact getLast?_append_singleton st.projects (normalizeCreated raw)

/-- C9: every project put into the store by the `addProject`,
`setCurrentProject`-fetch or `loadProjects` normalization paths has a
stringified id, and each of its sections is the normalization of a raw
server section, with `revisions` and `comments` defaulting to `[]` when
absent from the response — so no stored section lacks those arrays. -/
theorem C9_store_normalization :
    (∀ raw : RawProject, ∀ s ∈ (normalizeCreated raw).sections,
      ∃ rs ∈ raw.sections.getD [], s = normalizeSection rs ∧
        s.id = rs.id.toJsString ∧ s.revisions = rs.revisions.getD [] ∧
        s.comments = rs.comments.getD []) ∧
    (∀ raw : RawProject, ∀ s ∈ (normalizeProjectResponse raw).sections,
      ∃ rs ∈ raw.sections.getD [], s = normalizeSection rs ∧
        s.id = rs.id.toJsString ∧ s.revisions = rs.revisions.getD [] ∧
        s.comments = rs.comments.getD []) ∧
    (∀ (st : ProjectState) (raws : List RawProject),
      ∀ p ∈ (loadProjects st (Except.ok raws)).1.projects,
        ∃ raw ∈ raws, p = normalizeProjectResponse raw ∧ p.id = raw.id.toJsString) ∧
    (∀ raw : RawProject, (normalizeCreated raw).id = raw.id.toJsString ∧
      (normalizeProjectResponse raw).id = raw.id.toJsString) := by
  refine ⟨?_, ?_, ?_, fun raw => ⟨rfl, rfl⟩⟩
  · intro raw s hs
    rcases List.mem_map.mp hs with ⟨rs, hmem, rfl⟩
    exact ⟨rs, hmem, rfl, rfl, rfl, rfl⟩
  · intro raw s hs
    cases hsec : raw.sections with
    | none =>
      rw [show (normalizeProjectResponse raw).sections
          = match raw.sections with
            | some l => l.map normalizeSection
            | none => [] from rfl, hsec] at hs
      exact absurd hs (List.not_mem_nil s)
    | some l =>
      rw [show (normalizeProjectResponse raw).sections
          = match raw.sections with
            | some l => l.map normalizeSection
            | none => [] from rfl, hsec] at hs
      rcases List.mem_map.mp hs with ⟨rs, hmem, rfl⟩
      exact ⟨rs, hmem, rfl, rfl, rfl, rfl⟩
  · intro st raws p hp
    rcases List.mem_map.mp hp with ⟨raw, hmem, rfl⟩
    exact ⟨raw, hmem, rfl, rfl⟩

/-- C9 witness: the concrete raw section of `sampleRawProject`, whose
revision and comment arrays are absent, normalizes to a stored section with
empty revision and comment lists. -/
theorem C9_witness :
    ∃ rs ∈ sampleRawProject.sections.getD [],
      normalizeSection sampleRawSection = normalizeSection rs ∧
      (normalizeSection sampleRawSection).id = rs.id.toJsString ∧
      (normalizeSection sampleRawSection).revisions = rs.revisions.getD [] ∧
      (normalizeSection sampleRawSection).comments = rs.comments.getD [] :=
  C9_store_normalization.1 sampleRawProject (normalizeSection sampleRawSection) (by decide)

/-- C10: `addRevision` and `addComment` never touch `currentProject`
(whatever its value, even when it carries the targeted project id), while
`updateSection` applies the same per-project update to the `projects` array
and to `currentProject`; consequently, after `addRevision` on the project
mirrored by `currentProject`, the mirror diverges from the projects array
(shown on a concrete state, where the stale mirror keeps zero revisions). -/
theorem C10_currentProject_frame :
    (∀ (st : ProjectState) (pid sid c pr rid : String) (ts : Nat),
      (addRevision st pid sid c pr rid ts).1.currentProject = st.currentProject) ∧
    (∀ (st : ProjectState) (pid sid text cid : String) (ts : Nat) (r : Except Unit Unit),
      (addComment st pid sid text cid ts r).1.currentProject = st.currentProject) ∧
    (∀ (st : ProjectState) (pid sid : String) (u : SectionUpdates) (ts : Nat),
      (updateSection st pid sid u ts).1.projects
        = st.projects.map (updProject pid sid u ts) ∧
      (updateSection st pid sid u ts).1.currentProject
        = st.currentProject.map (updProject pid sid u ts)) ∧
    ((addRevision ⟨[sampleProject], some sampleProject⟩ "1" "s1" "new" "make it" "77" 9).1.currentProject
        = some sampleProject ∧
      (addRevision ⟨[sampleProject], some sampleProject⟩ "1" "s1" "new" "make it" "77" 9).1.projects
        ≠ [sampleProject]) := by
  refine ⟨fun _ _ _ _ _ _ _ => rfl, fun _ _ _ _ _ _ _ => rfl,
    fun _ _ _ _ _ => ⟨rfl, rfl⟩, rfl, ?_⟩
  decide

/-- C10 witness: on a concrete state whose `currentProject` mirrors the
stored project, `addRevision` leaves the mirror untouched. -/
theorem C10_witness :
    (addRevision ⟨[sampleProject], some sampleProject⟩ "1" "s1" "c" "p" "9" 3).1.currentProject
      = some sampleProject :=
  C10_currentProject_frame.1 ⟨[sampleProject], some sampleProject⟩ "1" "s1" "c" "p" "9" 3

end DocuForge
